/-
Verification of the ffmpeg_farm worker client (ffarm/worker/client.py) and of
the spec-described master-side Lease Coordinator.

The worker-side definitions are a shallow embedding of
src/ffmpeg_farm/ffarm/worker/client.py: Python floats are modelled as exact
rationals, the regex `time=(\d+):(\d+):(\d+\.\d+)` is modelled by an explicit
leftmost scanner with maximal-munch digit groups (equivalent for this pattern,
whose quantified groups are each followed by a literal that is not a digit),
and the asynchronous force-stop event is modelled by a Boolean-valued history
`flagAt : Nat -> Bool` sampled at the successive points where the code calls
`is_set()`.
-/
import Mathlib

set_option linter.unusedVariables false

/-! ## Basic Python-modelling helpers -/

/-- Characters stripped by Python `str.rstrip()` (ASCII whitespace). -/
def pyWhitespace (c : Char) : Bool :=
  c = ' ' || c = '\t' || c = '\n' || c = '\x0b' || c = '\x0c' || c = '\r'

/-- Python `line.rstrip()`: drop trailing whitespace. -/
def rstrip (s : String) : String :=
  ⟨(s.data.reverse.dropWhile pyWhitespace).reverse⟩

/-- Python truthiness of an optional string (`None` and `""` are falsy). -/
def pyTruthy : Option String → Bool
  | none => false
  | some s => !s.isEmpty

/-- Python `a or b` on optional strings. -/
def orPy (a b : Option String) : Option String :=
  if pyTruthy a then a else b

/-- Python truthiness of an optional integer (`None` and `0` are falsy). -/
def pyTruthyNat : Option Nat → Bool
  | none => false
  | some n => n != 0

/-! ## The progress pattern, client.py line 31:
`PROGRESS_PATTERN = re.compile(r"time=(\d+):(\d+):(\d+\.\d+)")` -/

/-- The four captured digit groups of one `PROGRESS_PATTERN` match:
`time=(hh):(mm):(ssInt.ssFrac)`. -/
structure TimeMatch where
  hh : List Char
  mm : List Char
  ssInt : List Char
  ssFrac : List Char
deriving DecidableEq, Repr

/-- Parse `(\d+):(\d+):(\d+\.\d+)` at the head of `cs` (maximal munch,
equivalent to the backtracking regex because each `\d+` is followed by a
non-digit literal). -/
def parseClock (cs : List Char) : Option TimeMatch :=
  let hh := cs.takeWhile Char.isDigit
  let r1 := cs.dropWhile Char.isDigit
  if hh.isEmpty then none else
  match r1 with
  | ':' :: r2 =>
    let mm := r2.takeWhile Char.isDigit
    let r3 := r2.dropWhile Char.isDigit
    if mm.isEmpty then none else
    match r3 with
    | ':' :: r4 =>
      let si := r4.takeWhile Char.isDigit
      let r5 := r4.dropWhile Char.isDigit
      if si.isEmpty then none else
      match r5 with
      | '.' :: r6 =>
        let sf := r6.takeWhile Char.isDigit
        if sf.isEmpty then none else some ⟨hh, mm, si, sf⟩
      | _ => none
    | _ => none
  | _ => none

/-- Try to match the whole pattern starting exactly here (`time=` literal,
then the clock). -/
def parseTimeAt (cs : List Char) : Option TimeMatch :=
  match cs with
  | 't' :: 'i' :: 'm' :: 'e' :: '=' :: rest => parseClock rest
  | _ => none

/-- `PROGRESS_PATTERN.search`: leftmost match of the pattern in the line. -/
def searchTime : List Char → Option TimeMatch
  | [] => none
  | c :: cs =>
    match parseTimeAt (c :: cs) with
    | some g => some g
    | none => searchTime cs

/-- Numeric value of a digit string (Python `int`). -/
def natOfDigits (ds : List Char) : Nat :=
  ds.foldl (fun a c => a * 10 + (c.toNat - 48)) 0

/-- Value of the fractional digit string `ds` read after a decimal point. -/
def fracOfDigits (ds : List Char) : ℚ :=
  (natOfDigits ds : ℚ) / (10 : ℚ) ^ ds.length

/-- client.py `_seconds_from_match`:
`int(hours) * 3600 + int(minutes) * 60 + float(seconds)` (exact rationals in
place of floats). -/
def secondsFromMatch (g : TimeMatch) : ℚ :=
  (natOfDigits g.hh : ℚ) * 3600 + (natOfDigits g.mm : ℚ) * 60
    + ((natOfDigits g.ssInt : ℚ) + fracOfDigits g.ssFrac)

/-- The inline progress extraction of client.py lines 245-248: the new
estimate produced by one line, or `none` when the line yields no update
(`if match and duration:` — Python truthiness makes a 0.0 duration falsy). -/
def progressOfLine (line : String) (duration : Option ℚ) : Option ℚ :=
  match searchTime line.data, duration with
  | some g, some d =>
    if d ≠ 0 then some (min (99 / 100 : ℚ) (secondsFromMatch g / d)) else none
  | _, _ => none

/-- The running `progress` variable after one line: updated on a successful
extraction, otherwise unchanged. -/
def stepProgress (duration : Option ℚ) (p : ℚ) (line : String) : ℚ :=
  (progressOfLine line duration).getD p

/-! ## Worker-side data model (client.py / ffarm.models) -/

/-- `WorkerStatus` enum of ffarm.models, as used by client.py. -/
inductive WorkerStatus
  | ONLINE
  | STOPPING
  | FORCE_STOPPING
  | STOPPED
deriving DecidableEq, Repr

/-- `ActiveJob` dataclass, client.py lines 58-64. -/
structure ActiveJob where
  job_id : Nat
  input_path : String
  output_path : String
  profile : String
  ffmpeg_args : List String
deriving DecidableEq, Repr

/-- The `LeaseResponse` payload parsed at client.py line 141 (fields read by
`_request_job`; `action` is the raw string the code compares against). -/
structure LeaseResponse where
  action : String
  job_id : Option Nat
  input_path : String
  output_path : String
  profile : String
  ffmpeg_args : List String
  accept_leases : Bool
deriving DecidableEq, Repr

/-- The mutable fields of `WorkerClient` that the worker loop reads/writes
(client.py `__init__`): the two threading events, the current job, the status,
the lease permission, the rolling stderr window, the resolved ffmpeg binary
and the last lease response. -/
structure WorkerState where
  current_job : Option ActiveJob
  status : WorkerStatus
  accept_leases : Bool
  stop_event : Bool
  force_stop_event : Bool
  last_stderr : List String
  ffmpeg_bin : Option String
  last_lease_response : Option LeaseResponse
deriving DecidableEq, Repr

/-- `WorkerClient.stop`, client.py lines 104-106: set both events. -/
def WorkerClient.stop (st : WorkerState) : WorkerState :=
  { st with stop_event := true, force_stop_event := true }

/-- The parts of the OS environment read by `WorkerClient._resolve_tool`
(client.py lines 347-360): the environment-variable override, which absolute
paths are executable, and what `shutil.which` resolves. -/
structure ToolEnv where
  override : Option String
  absExecutable : String → Bool
  which : String → Option String

/-- `WorkerClient._resolve_tool`, client.py lines 347-360: try the
environment override (absolute-executable check, then `shutil.which` on it),
then fall back to `shutil.which(executable)`. -/
def resolve_tool (te : ToolEnv) (executable : String) : Option String :=
  match te.override with
  | some o =>
    if !o.isEmpty then
      if te.absExecutable o then some o
      else
        match te.which o with
        | some r => some r
        | none => te.which executable
    else te.which executable
  | none => te.which executable

/-! ## Job execution (client.py `_execute_job`, lines 189-263) -/

/-- Everything external that one `_execute_job` call observes: the OS tool
environment, whether `subprocess.Popen` succeeds, the probed duration, the
stderr lines produced by the process, its exit code, and the force-stop
event's value at the successive `is_set()` observation points (index `i` is
the check before processing line `i`; index `stderrLines.length` is the check
at line 255 after `process.wait()`). -/
structure ExecEnv where
  toolEnv : ToolEnv
  spawnOk : Bool
  duration : Option ℚ
  stderrLines : List String
  returnCode : Int
  flagAt : Nat → Bool

/-- Outcome of the stderr line loop (client.py lines 236-249). -/
structure LoopOut where
  progress : ℚ
  reports : List ℚ
  terminated : Bool
  procLines : List String
deriving DecidableEq, Repr

/-- The stderr read loop, client.py lines 236-249: for each line, first check
the force-stop event (terminate and break if set), skip lines that are empty
after `rstrip`, otherwise update `progress` from the line and send it. -/
def lineLoop (duration : Option ℚ) (flagAt : Nat → Bool) :
    List String → Nat → ℚ → LoopOut
  | [], _, p => ⟨p, [], false, []⟩
  | raw :: rest, i, p =>
    if flagAt i then ⟨p, [], true, []⟩
    else
      let line := rstrip raw
      if line.isEmpty then lineLoop duration flagAt rest (i + 1) p
      else
        let p' := stepProgress duration p line
        let out := lineLoop duration flagAt rest (i + 1) p'
        ⟨out.progress, p' :: out.reports, out.terminated, line :: out.procLines⟩

/-- Observable outcome of one `_execute_job` call: the post-call worker
state, the completion report `(success, return_code)` sent, the progress
fractions sent, whether `process.terminate()` was called, and whether
`process.wait()` was reached. -/
structure ExecResult where
  state : WorkerState
  completion : Bool × Int
  progressReports : List ℚ
  terminated : Bool
  waited : Bool
deriving DecidableEq, Repr

/-- `WorkerClient._execute_job`, client.py lines 189-263.  Mirrors the
source: set the current job and ONLINE status, clear the stderr window,
resolve the ffmpeg binary (`self._ffmpeg_bin or self._resolve_tool(...)`),
report an immediate `(False, -1)` completion if the binary is missing or the
spawn fails, otherwise send an initial 0.0 progress report, run the stderr
loop, wait for the exit code, compute `success = (rc == 0) and not force`,
send the completion, clear the current job and the force-stop event, and set
the final status from `accept_leases` (line 262; the FORCE_STOPPING
assignment of line 258 is overwritten there). -/
def executeJob (st : WorkerState) (job : ActiveJob) (env : ExecEnv) : ExecResult :=
  let st0 : WorkerState :=
    { st with current_job := some job, status := WorkerStatus.ONLINE, last_stderr := [] }
  let ffmpegBin := orPy st0.ffmpeg_bin (resolve_tool env.toolEnv "ffmpeg")
  if !pyTruthy ffmpegBin then
    { state := { st0 with current_job := none }, completion := (false, -1),
      progressReports := [], terminated := false, waited := false }
  else if !env.spawnOk then
    { state := { st0 with current_job := none }, completion := (false, -1),
      progressReports := [], terminated := false, waited := false }
  else
    let out := lineLoop env.duration env.flagAt env.stderrLines 0 0
    let forceFinal := env.flagAt env.stderrLines.length
    let success := (env.returnCode == 0) && !forceFinal
    let finalStatus :=
      if st0.accept_leases then WorkerStatus.ONLINE else WorkerStatus.STOPPED
    let st1 : WorkerState :=
      { st0 with
        current_job := none
        force_stop_event := false
        status := finalStatus
        last_stderr := out.procLines.drop (out.procLines.length - 50) }
    { state := st1,
      completion := (success, env.returnCode),
      progressReports := 0 :: out.reports,
      terminated := out.terminated, waited := true }

/-! ## Networked calls (client.py `_request_job`, `_send_heartbeat`,
`_send_progress`, `_send_completion`) -/

/-- Outcome of one `httpx.Client.post`: either an `httpx.RequestError`
(the transport-level failure: the request never completed) or a response. -/
inductive HttpOutcome (α : Type)
  | transportError
  | ok (r : α)
deriving DecidableEq, Repr

/-- A Python exception that would escape the embedded function (no
surrounding `except` clause catches it). -/
inductive PyError
  | httpStatusError
  | parseError
deriving DecidableEq, Repr

/-- Response to the lease POST as `_request_job` reads it: the HTTP status
and, when the body parses as a `LeaseResponse`, the payload (`none` models a
body on which `LeaseResponse.parse_obj(response.json())` raises). -/
structure LeaseHttp where
  status : Nat
  body : Option LeaseResponse
deriving DecidableEq, Repr

/-- `WorkerClient._request_job`, client.py lines 123-161.  A transport error
is caught and logged (`return None`); a non-200 status is logged (`return
None`); an unparsable 200 body raises out of the function (no handler);
otherwise the payload is recorded and dispatched on its `action`. -/
def requestJob (st : WorkerState) (out : HttpOutcome LeaseHttp) :
    Except PyError (WorkerState × Option ActiveJob) :=
  match out with
  | .transportError => .ok (st, none)
  | .ok r =>
    if r.status ≠ 200 then .ok (st, none)
    else
      match r.body with
      | none => .error .parseError
      | some payload =>
        if payload.action = "force_stop" then
          .ok ({ st with last_lease_response := some payload,
                         status := WorkerStatus.FORCE_STOPPING,
                         force_stop_event := true }, none)
        else if payload.action = "stop" then
          .ok ({ st with last_lease_response := some payload,
                         status := WorkerStatus.STOPPING,
                         accept_leases := false }, none)
        else if !pyTruthyNat payload.job_id then
          .ok ({ st with last_lease_response := some payload,
                         accept_leases := payload.accept_leases }, none)
        else
          .ok ({ st with last_lease_response := some payload,
                         accept_leases := payload.accept_leases },
               some ⟨payload.job_id.getD 0, payload.input_path,
                     payload.output_path, payload.profile, payload.ffmpeg_args⟩)

/-- Body of a heartbeat response after the `data.get(...)` defaults of
client.py lines 175-176 are applied. -/
structure HeartbeatBody where
  accept_leases : Bool
  wstatus : WorkerStatus
deriving DecidableEq, Repr

/-- Heartbeat response as `_send_heartbeat` reads it (`body = none` models a
body on which `response.json()` raises). -/
structure HeartbeatHttp where
  status : Nat
  body : Option HeartbeatBody
deriving DecidableEq, Repr

/-- `WorkerClient._send_heartbeat`, client.py lines 163-187.  A transport
error is caught and logged; `raise_for_status()` raises `HTTPStatusError`
(which the `except httpx.RequestError` clause does not catch) on a 4xx/5xx
status; otherwise `accept_leases` and the status directives are applied. -/
def sendHeartbeat (st : WorkerState) (out : HttpOutcome HeartbeatHttp) :
    Except PyError WorkerState :=
  match out with
  | .transportError => .ok st
  | .ok r =>
    if 400 ≤ r.status then .error .httpStatusError
    else
      match r.body with
      | none => .error .parseError
      | some data =>
        if data.wstatus = WorkerStatus.FORCE_STOPPING then
          .ok { st with accept_leases := data.accept_leases,
                        status := WorkerStatus.FORCE_STOPPING,
                        force_stop_event := true }
        else if data.wstatus = WorkerStatus.STOPPING then
          .ok { st with status := WorkerStatus.STOPPING, accept_leases := false }
        else if st.current_job = none then
          .ok { st with accept_leases := data.accept_leases,
                        status := WorkerStatus.ONLINE }
        else .ok { st with accept_leases := data.accept_leases }

/-- `WorkerClient._send_progress`, client.py lines 265-275: fire-and-forget;
the only failure mode of the modelled call is `httpx.RequestError`, which is
caught and logged. -/
def sendProgress (st : WorkerState) (jobId : Nat) (progress : ℚ)
    (out : HttpOutcome Unit) : Except PyError Unit :=
  match out with
  | .transportError => .ok ()
  | .ok _ => .ok ()

/-- `WorkerClient._send_completion`, client.py lines 277-289: same
fire-and-forget shape as `_send_progress`. -/
def sendCompletion (st : WorkerState) (jobId : Nat) (success : Bool)
    (returnCode : Int) (out : HttpOutcome Unit) : Except PyError Unit :=
  match out with
  | .transportError => .ok ()
  | .ok _ => .ok ()

/-! ## The worker loop (client.py `_loop`, lines 108-121) -/

/-- External observations of one iteration of `_loop`: whether the heartbeat
timer is due, the two call outcomes, and the execution environment used if a
job is leased. -/
structure LoopEnv where
  heartbeatDue : Bool
  heartbeatOutcome : HttpOutcome HeartbeatHttp
  leaseOutcome : HttpOutcome LeaseHttp
  execEnv : ExecEnv

/-- One iteration of the `while` body of `WorkerClient._loop` (lines
110-121), entered with the stop event not set.  Returns the state at the end
of the iteration and whether `_request_job` was called.  The lease guard is
line 115: `self._current_job is None and self._accept_leases and not
self._force_stop_event.is_set()`. -/
def loopIter (st : WorkerState) (env : LoopEnv) :
    Except PyError (WorkerState × Bool) :=
  match (if env.heartbeatDue then sendHeartbeat st env.heartbeatOutcome else .ok st) with
  | .error e => .error e
  | .ok st1 =>
    if st1.current_job.isNone && st1.accept_leases && !st1.force_stop_event then
      match requestJob st1 env.leaseOutcome with
      | .error e => .error e
      | .ok (st2, some job) => .ok ((executeJob st2 job env.execEnv).state, true)
      | .ok (st2, none) => .ok (st2, true)
    else
      .ok (st1, false)

/-! ## Master-side Lease Coordinator (spec-modelled) -/

/-- Job states from the spec data model (spec section 3). -/
inductive JobState
  | PENDING
  | LEASED
  | RUNNING
  | SUCCEEDED
  | FAILED
deriving DecidableEq, Repr

/-- Modelled from the spec: the Job record fields the Lease Coordinator's
claim step touches (spec sections 3 and 4.2); the master-side modules
(ffarm.master.server, ffarm.jobs, ffarm.workers, ffarm.state) are not in the
source tree. -/
structure MJob where
  id : Nat
  jstate : JobState
  worker_id : Option String
  attempts : Nat
deriving DecidableEq, Repr

/-- Modelled from the spec: the master-side shared state the Lease
Coordinator reads on a poll — the job table in insertion order, the
per-worker stop and force-stop flags held by the Worker Registry, the
per-worker lease permission, and the global pause flag (spec sections 4.1,
4.2 and 9; the master-side modules are not in the source tree). -/
structure MasterState where
  jobs : List MJob
  forceFlag : String → Bool
  stopFlag : String → Bool
  acceptLeases : String → Bool
  paused : Bool

/-- `LeaseDecision` from spec section 4.2. -/
inductive LeaseDecision
  | Assign (job : MJob)
  | Stop
  | ForceStop
  | Wait (accept_leases : Bool)
deriving DecidableEq, Repr

/-- Modelled from the spec: atomically claim the oldest PENDING job —
transition it to LEASED, stamp the worker id, increment `attempts` (spec
section 4.2 step 4; the master-side job-claim code is not in the source
tree). -/
def claimOldestPending (jobs : List MJob) (w : String) :
    Option MJob × List MJob :=
  match jobs with
  | [] => (none, [])
  | j :: rest =>
    if j.jstate = JobState.PENDING then
      let j' : MJob :=
        { j with jstate := JobState.LEASED, worker_id := some w,
                 attempts := j.attempts + 1 }
      (some j', j' :: rest)
    else
      let r := claimOldestPending rest w
      (r.1, j :: r.2)

/-- The record a successful claim produces for job `j0` and worker `w`. -/
def leasedTo (j0 : MJob) (w : String) : MJob :=
  { j0 with jstate := JobState.LEASED, worker_id := some w, attempts := j0.attempts + 1 }

/-- Modelled from the spec: `request_lease(worker_id, name) -> LeaseDecision`
evaluated in the spec's priority order — force-stop flag, stop flag, global
pause, then the atomic claim of the oldest PENDING job (spec section 4.2;
the master-side coordinator code is not in the source tree). -/
def request_lease (st : MasterState) (w : String) :
    LeaseDecision × MasterState :=
  if st.forceFlag w then (LeaseDecision.ForceStop, st)
  else if st.stopFlag w then
    (LeaseDecision.Stop,
     { st with acceptLeases := fun x => if x = w then false else st.acceptLeases x })
  else if st.paused then (LeaseDecision.Wait true, st)
  else
    match h : claimOldestPending st.jobs w with
    | (some j, jobs') => (LeaseDecision.Assign j, { st with jobs := jobs' })
    | (none, _) => (LeaseDecision.Wait true, st)

/-- Modelled from the spec: the serialization of a set of concurrent lease
requests — the claim step is "a single critical section", so any concurrent
batch is equivalent to processing the requests one at a time in some order
(spec section 5). -/
def serializeRequests (st : MasterState) : List String → List LeaseDecision × MasterState
  | [] => ([], st)
  | w :: ws =>
    let d := request_lease st w
    let rest := serializeRequests d.2 ws
    (d.1 :: rest.1, rest.2)

/-- Whether a decision is an assignment. -/
def isAssign : LeaseDecision → Bool
  | LeaseDecision.Assign _ => true
  | _ => false

/-- Number of `Assign` decisions in a batch. -/
def countAssigns (ds : List LeaseDecision) : Nat :=
  ds.countP isAssign

/-- The PENDING jobs of a master state, in insertion order. -/
def pendingJobs (st : MasterState) : List MJob :=
  st.jobs.filter (fun j => j.jstate = JobState.PENDING)

/-! ## Derived observations used by the theorems -/

/-- The sequence of `time=` values (in seconds) successfully extracted from a
run of output lines, in order. -/
def matchedSeconds (lines : List String) : List ℚ :=
  lines.filterMap (fun raw => (searchTime (rstrip raw).data).map secondsFromMatch)

/-! ## Concrete fixtures for witnesses and counterexamples -/

/-- A tool environment in which nothing resolves. -/
def toolEnvNone : ToolEnv := ⟨none, fun _ => false, fun _ => none⟩

/-- A fresh worker state with a resolved ffmpeg binary. -/
def wkSt0 : WorkerState :=
  ⟨none, WorkerStatus.ONLINE, true, false, false, [], some "/usr/bin/ffmpeg", none⟩

/-- A fresh worker state on a host with no ffmpeg anywhere. -/
def wkStNoBin : WorkerState := { wkSt0 with ffmpeg_bin := none }

/-- A sample job. -/
def wkJob0 : ActiveJob := ⟨1, "/in/a.mov", "/out/a.mov", "prores", ["-i", "/in/a.mov"]⟩

/-- An execution environment that exercises nothing (no lines, no duration). -/
def execEnvQuiet : ExecEnv := ⟨toolEnvNone, true, none, [], 0, fun _ => false⟩

/-- Execution with a negative probed duration and one timed line. -/
def execEnvNegDur : ExecEnv :=
  ⟨toolEnvNone, true, some (-1), ["time=00:01:30.00"], 0, fun _ => false⟩

/-- Execution with a 300 s duration and two increasing timed lines. -/
def execEnvTimed : ExecEnv :=
  ⟨toolEnvNone, true, some 300, ["time=00:00:01.00"], 0, fun _ => false⟩

/-- Execution during which the force-stop event is set throughout. -/
def execEnvForced : ExecEnv :=
  ⟨toolEnvNone, true, none, ["frame=1"], 1, fun _ => true⟩

/-- A loop environment in which every networked call fails at the transport
level. -/
def loopEnvTransportFail : LoopEnv :=
  ⟨true, HttpOutcome.transportError, HttpOutcome.transportError, execEnvQuiet⟩

/-- A lease response assigning job 1. -/
def leaseAssignPayload : LeaseResponse :=
  ⟨"assign", some 1, "/in/a.mov", "/out/a.mov", "prores", ["-i", "/in/a.mov"], true⟩

/-- A loop environment whose lease call assigns job 1 (heartbeat not due);
execution then fails tool resolution immediately. -/
def loopEnvAssign : LoopEnv :=
  ⟨false, HttpOutcome.transportError, HttpOutcome.ok ⟨200, some leaseAssignPayload⟩,
   execEnvQuiet⟩

/-- The state after `loopEnvAssign` runs from `wkStNoBin`. -/
def wkStAfterAssign : WorkerState :=
  { wkStNoBin with last_lease_response := some leaseAssignPayload }

/-- One PENDING job for the master-side fixtures. -/
def mJobPending : MJob := ⟨1, JobState.PENDING, none, 0⟩

/-- A master state with exactly one PENDING job and nothing blocking leases. -/
def mSt0 : MasterState := ⟨[mJobPending], fun _ => false, fun _ => false, fun _ => true, false⟩

/-- The same master state with the global pause flag set. -/
def mStPaused : MasterState := { mSt0 with paused := true }

/-! # Theorems -/

/-! ## Branch characterizations of `executeJob` -/

theorem executeJob_fail (st : WorkerState) (job : ActiveJob) (env : ExecEnv)
    (h : pyTruthy (orPy st.ffmpeg_bin (resolve_tool env.toolEnv "ffmpeg")) = false ∨
      env.spawnOk = false) :
    executeJob st job env =
      { state := { st with
          current_job := none
          status := WorkerStatus.ONLINE
          last_stderr := [] },
        completion := (false, -1), progressReports := [],
        terminated := false, waited := false } := by
  rw [executeJob]
  rcases h with h | h
  · simp [h]
  · by_cases h1 : pyTruthy (orPy st.ffmpeg_bin (resolve_tool env.toolEnv "ffmpeg"))
    · simp [h1, h]
    · simp [h1]

theorem executeJob_run (st : WorkerState) (job : ActiveJob) (env : ExecEnv)
    (htool : pyTruthy (orPy st.ffmpeg_bin (resolve_tool env.toolEnv "ffmpeg")) = true)
    (hspawn : env.spawnOk = true) :
    executeJob st job env =
      { state := { st with
          current_job := none
          status := (if st.accept_leases then WorkerStatus.ONLINE else WorkerStatus.STOPPED)
          force_stop_event := false
          last_stderr := ((lineLoop env.duration env.flagAt env.stderrLines 0 0).procLines).drop
            (((lineLoop env.duration env.flagAt env.stderrLines 0 0).procLines).length - 50) },
        completion :=
          ((env.returnCode == 0) && !env.flagAt env.stderrLines.length, env.returnCode),
        progressReports := 0 :: (lineLoop env.duration env.flagAt env.stderrLines 0 0).reports,
        terminated := (lineLoop env.duration env.flagAt env.stderrLines 0 0).terminated,
        waited := true } := by
  rw [executeJob]
  simp only [htool, hspawn, Bool.not_true, Bool.false_eq_true, if_false]

/-! ## Helper lemmas about the progress extractor -/

theorem secondsFromMatch_nonneg (g : TimeMatch) : 0 ≤ secondsFromMatch g := by
  unfold secondsFromMatch fracOfDigits
  positivity

theorem progressOfLine_none_of_no_match {line : String} (d : Option ℚ)
    (h : searchTime line.data = none) : progressOfLine line d = none := by
  cases d <;> simp [progressOfLine, h]

theorem progressOfLine_some {line : String} {g : TimeMatch} {d : ℚ}
    (hm : searchTime line.data = some g) (hd : d ≠ 0) :
    progressOfLine line (some d) =
      some (min (99 / 100 : ℚ) (secondsFromMatch g / d)) := by
  simp [progressOfLine, hm, hd]

theorem stepProgress_bounds {dOpt : Option ℚ} (hd : ∀ d, dOpt = some d → 0 < d)
    {p : ℚ} (hp0 : 0 ≤ p) (hp1 : p ≤ 99 / 100) (line : String) :
    0 ≤ stepProgress dOpt p line ∧ stepProgress dOpt p line ≤ 99 / 100 := by
  unfold stepProgress
  cases hm : searchTime line.data with
  | none =>
    rw [progressOfLine_none_of_no_match dOpt hm]
    exact ⟨hp0, hp1⟩
  | some g =>
    cases dOpt with
    | none => simp [progressOfLine, hm, hp0, hp1]
    | some d =>
      have hdp : 0 < d := hd d rfl
      rw [progressOfLine_some hm hdp.ne', Option.getD_some]
      refine ⟨le_min (by norm_num) (div_nonneg (secondsFromMatch_nonneg g) hdp.le), ?_⟩
      exact min_le_left _ _

/-- C3: for every diagnostic line in which the progress pattern matches with
digit groups HH, MM, SSIntpart, SSFracpart and a known total duration d > 0,
the inline extraction of client.py lines 245-248 produces exactly
min(0.99, (3600*HH + 60*MM + SS.ss) / d). -/
theorem C3_progress_formula (line : String) (g : TimeMatch) (d : ℚ)
    (hm : searchTime line.data = some g) (hd : 0 < d) :
    progressOfLine line (some d) =
      some (min (99 / 100 : ℚ)
        (((natOfDigits g.hh : ℚ) * 3600 + (natOfDigits g.mm : ℚ) * 60
          + ((natOfDigits g.ssInt : ℚ) + fracOfDigits g.ssFrac)) / d)) :=
  progressOfLine_some hm hd.ne'

/-- C3 witness: a line containing `time=00:01:30.00` with a known duration of
300 seconds yields exactly 0.30. -/
theorem C3_witness :
    progressOfLine "frame= 10 time=00:01:30.00 bitrate=1k" (some 300)
      = some (3 / 10 : ℚ) := by
  have h := C3_progress_formula "frame= 10 time=00:01:30.00 bitrate=1k"
    ⟨['0', '0'], ['0', '1'], ['3', '0'], ['0', '0']⟩ 300 (by decide) (by norm_num)
  rw [h]
  have h0 : natOfDigits ['0', '0'] = 0 := by decide
  have h1 : natOfDigits ['0', '1'] = 1 := by decide
  have h3 : natOfDigits ['3', '0'] = 30 := by decide
  norm_num [fracOfDigits, h0, h1, h3, min_def]

/-- C7: a line with no parsable `time=HH:MM:SS.ss` timing information
produces no update (the extraction yields `none`) and leaves the running
progress estimate unchanged; the extraction is a total function, so no
exception is possible. -/
theorem C7_unparsable_line_no_update (line : String) (d : Option ℚ) (p : ℚ)
    (h : searchTime line.data = none) :
    progressOfLine line d = none ∧ stepProgress d p line = p := by
  have h1 := progressOfLine_none_of_no_match d h
  exact ⟨h1, by rw [stepProgress, h1, Option.getD_none]⟩

/-- C7 witness: a partial timestamp (`time=00:01`, missing the seconds
field) yields no update and leaves the estimate at 0.42. -/
theorem C7_witness :
    progressOfLine "size= 12kB time=00:01 bitrate=" (some 300) = none ∧
      stepProgress (some 300) (42 / 100) "size= 12kB time=00:01 bitrate=" = 42 / 100 :=
  C7_unparsable_line_no_update "size= 12kB time=00:01 bitrate=" (some 300) (42 / 100)
    (by decide)

/-! ## C4: bounds on reported progress -/

theorem lineLoop_reports_bounded {dOpt : Option ℚ} (hd : ∀ d, dOpt = some d → 0 < d)
    (flagAt : Nat → Bool) :
    ∀ (lines : List String) (i : Nat) (p : ℚ), 0 ≤ p → p ≤ 99 / 100 →
      ∀ q ∈ (lineLoop dOpt flagAt lines i p).reports, 0 ≤ q ∧ q ≤ 99 / 100 := by
  intro lines
  induction lines with
  | nil => intro i p _ _ q hq; simp [lineLoop] at hq
  | cons raw rest ih =>
    intro i p hp0 hp1 q hq
    rw [lineLoop] at hq
    by_cases hflag : flagAt i
    · simp [hflag] at hq
    · simp only [hflag, if_false, Bool.false_eq_true] at hq
      by_cases hline : (rstrip raw).isEmpty
      · rw [if_pos hline] at hq
        exact ih (i + 1) p hp0 hp1 q hq
      · rw [if_neg hline] at hq
        simp only [List.mem_cons] at hq
        have hb := stepProgress_bounds hd hp0 hp1 (rstrip raw)
        rcases hq with rfl | hq
        · exact hb
        · exact ih (i + 1) _ hb.1 hb.2 q hq

/-- C4 (amended): every progress value the worker reports during a job lies
in [0, 0.99], for any sequence of output lines, provided the known duration
(when present) is positive. -/
theorem C4_progress_bounds (st : WorkerState) (job : ActiveJob) (env : ExecEnv)
    (hd : ∀ d, env.duration = some d → 0 < d) :
    ∀ p ∈ (executeJob st job env).progressReports, 0 ≤ p ∧ p ≤ 99 / 100 := by
  intro p hp
  rw [executeJob] at hp
  by_cases h1 : pyTruthy (orPy st.ffmpeg_bin (resolve_tool env.toolEnv "ffmpeg"))
  · simp only [h1, Bool.not_true, Bool.false_eq_true, if_false] at hp
    by_cases h2 : env.spawnOk
    · simp only [h2, Bool.not_true, Bool.false_eq_true, if_false] at hp
      simp only [List.mem_cons] at hp
      rcases hp with rfl | hp
      · norm_num
      · exact lineLoop_reports_bounded hd env.flagAt env.stderrLines 0 0 le_rfl
          (by norm_num) p hp
    · simp [h2] at hp
  · simp [h1] at hp

/-- C4 counterexample: the claim as stated quantifies over any known
duration; with a (pathological but unguarded) negative probed duration of -1
second and the line `time=00:01:30.00`, the worker computes and reports the
progress value min(0.99, 90 / -1) = -90, which is outside [0, 0.99]. -/
theorem C4_counterexample :
    ¬ (∀ p ∈ (executeJob wkSt0 wkJob0 execEnvNegDur).progressReports,
        0 ≤ p ∧ p ≤ 99 / 100) := by
  intro h
  have hrep : (executeJob wkSt0 wkJob0 execEnvNegDur).progressReports =
      [0, min (99 / 100 : ℚ)
        (secondsFromMatch ⟨['0', '0'], ['0', '1'], ['3', '0'], ['0', '0']⟩ / (-1))] := by
    rfl
  have h2 := h _ (by rw [hrep]; exact List.mem_cons_of_mem _ (List.mem_singleton.mpr rfl))
  have hval : secondsFromMatch ⟨['0', '0'], ['0', '1'], ['3', '0'], ['0', '0']⟩ = 90 := by
    have h0 : natOfDigits ['0', '0'] = 0 := by decide
    have h1 : natOfDigits ['0', '1'] = 1 := by decide
    have h3 : natOfDigits ['3', '0'] = 30 := by decide
    rw [secondsFromMatch]
    norm_num [fracOfDigits, h0, h1, h3]
  rw [hval] at h2
  have hmin : min (99 / 100 : ℚ) (90 / (-1)) = -90 := by norm_num [min_def]
  rw [hmin] at h2
  linarith [h2.1]

/-- C4 witness: on a quiet run (no duration known), the single initial
report 0 is within bounds. -/
theorem C4_witness : 0 ≤ (0 : ℚ) ∧ (0 : ℚ) ≤ 99 / 100 :=
  C4_progress_bounds wkSt0 wkJob0 execEnvQuiet
    (by intro d h; simp [execEnvQuiet] at h) 0 (List.Mem.head _)

/-! ## C8: monotone progress -/

theorem matchedSeconds_nonneg {lines : List String} :
    ∀ s ∈ matchedSeconds lines, 0 ≤ s := by
  intro s hs
  simp only [matchedSeconds, List.mem_filterMap] at hs
  obtain ⟨raw, -, hmap⟩ := hs
  rcases Option.map_eq_some'.mp hmap with ⟨g, -, rfl⟩
  exact secondsFromMatch_nonneg g

theorem matchedSeconds_cons_none {raw : String} {rest : List String}
    (h : searchTime (rstrip raw).data = none) :
    matchedSeconds (raw :: rest) = matchedSeconds rest := by
  simp [matchedSeconds, h]

theorem matchedSeconds_cons_some {raw : String} {rest : List String} {g : TimeMatch}
    (h : searchTime (rstrip raw).data = some g) :
    matchedSeconds (raw :: rest) = secondsFromMatch g :: matchedSeconds rest := by
  simp [matchedSeconds, h]

theorem lineLoop_reports_chain {d : ℚ} (hd : 0 < d) (flagAt : Nat → Bool) :
    ∀ (lines : List String) (i : Nat) (p : ℚ),
      (∀ s ∈ (matchedSeconds lines).head?, p ≤ min (99 / 100 : ℚ) (s / d)) →
      List.Chain' (· ≤ ·) (matchedSeconds lines) →
      List.Chain' (· ≤ ·) (p :: (lineLoop (some d) flagAt lines i p).reports) := by
  intro lines
  induction lines with
  | nil => intro i p _ _; simp [lineLoop]
  | cons raw rest ih =>
    intro i p hhead hchain
    rw [lineLoop]
    by_cases hflag : flagAt i
    · simp [hflag]
    · simp only [hflag, Bool.false_eq_true, if_false]
      by_cases hline : (rstrip raw).isEmpty
      · rw [if_pos hline]
        have hnone : searchTime (rstrip raw).data = none := by
          have he : rstrip raw = "" := (String.isEmpty_iff _).mp hline
          rw [he]; rfl
        rw [matchedSeconds_cons_none hnone] at hhead hchain
        exact ih (i + 1) p hhead hchain
      · rw [if_neg hline]
        cases hm : searchTime (rstrip raw).data with
        | none =>
          have hstep : stepProgress (some d) p (rstrip raw) = p := by
            rw [stepProgress, progressOfLine_none_of_no_match _ hm, Option.getD_none]
          rw [matchedSeconds_cons_none hm] at hhead hchain
          simp only [List.chain'_cons, hstep]
          exact ⟨le_rfl, ih (i + 1) p hhead hchain⟩
        | some g =>
          have hstep : stepProgress (some d) p (rstrip raw)
              = min (99 / 100 : ℚ) (secondsFromMatch g / d) := by
            rw [stepProgress, progressOfLine_some hm hd.ne', Option.getD_some]
          rw [matchedSeconds_cons_some hm] at hhead hchain
          have hple : p ≤ min (99 / 100 : ℚ) (secondsFromMatch g / d) :=
            hhead _ (by simp)
          have hchain' := List.chain'_cons'.mp hchain
          simp only [List.chain'_cons, hstep]
          refine ⟨hple, ?_⟩
          refine ih (i + 1) _ ?_ hchain'.2
          intro s' hs'
          exact min_le_min le_rfl ((div_le_div_iff_of_pos_right hd).mpr (hchain'.1 s' hs'))

/-- C8: while a job is running, the sequence of progress values the worker
reports is monotonically non-decreasing, provided the `time=` values in the
successive output lines are non-decreasing and the known duration is a fixed
positive value. -/
theorem C8_progress_monotone (st : WorkerState) (job : ActiveJob) (env : ExecEnv)
    (d : ℚ) (hdur : env.duration = some d) (hd : 0 < d)
    (hmono : List.Chain' (· ≤ ·) (matchedSeconds env.stderrLines)) :
    List.Chain' (· ≤ ·) (executeJob st job env).progressReports := by
  rw [executeJob]
  by_cases h1 : pyTruthy (orPy st.ffmpeg_bin (resolve_tool env.toolEnv "ffmpeg"))
  · simp only [h1, Bool.not_true, Bool.false_eq_true, if_false]
    by_cases h2 : env.spawnOk
    · simp only [h2, Bool.not_true, Bool.false_eq_true, if_false]
      rw [hdur]
      refine lineLoop_reports_chain hd env.flagAt env.stderrLines 0 0 ?_ hmono
      intro s hs
      have hs' : s ∈ matchedSeconds env.stderrLines := List.mem_of_mem_head? hs
      exact le_min (by norm_num)
        (div_nonneg (matchedSeconds_nonneg s hs') hd.le)
    · simp [h2]
  · simp [h1]

/-- C8 witness: one timed line (`time=00:00:01.00`) under a 300 s duration
produces the non-decreasing report sequence. -/
theorem C8_witness :
    List.Chain' (· ≤ ·) (executeJob wkSt0 wkJob0 execEnvTimed).progressReports := by
  refine C8_progress_monotone wkSt0 wkJob0 execEnvTimed 300 rfl (by norm_num) ?_
  have h : matchedSeconds execEnvTimed.stderrLines
      = [secondsFromMatch ⟨['0', '0'], ['0', '0'], ['0', '1'], ['0', '0']⟩] := rfl
  rw [h]
  exact List.chain'_singleton _

/-! ## C2, C10: force stop -/

theorem lineLoop_terminated {dOpt : Option ℚ} {flagAt : Nat → Bool} :
    ∀ (lines : List String) (i0 : Nat) (p : ℚ) (k : Nat), k < lines.length →
      flagAt (i0 + k) = true → (lineLoop dOpt flagAt lines i0 p).terminated = true := by
  intro lines
  induction lines with
  | nil => intro i0 p k hk; simp at hk
  | cons raw rest ih =>
    intro i0 p k hk hset
    rw [lineLoop]
    by_cases hflag : flagAt i0
    · simp [hflag]
    · simp only [hflag, Bool.false_eq_true, if_false]
      cases k with
      | zero => rw [Nat.add_zero] at hset; exact absurd hset hflag
      | succ k' =>
        have hk' : k' < rest.length := Nat.lt_of_succ_lt_succ (by simpa using hk)
        have hset' : flagAt (i0 + 1 + k') = true := by
          have harith : i0 + 1 + k' = i0 + (k' + 1) := by omega
          rw [harith]; exact hset
        by_cases hline : (rstrip raw).isEmpty
        · rw [if_pos hline]; exact ih (i0 + 1) p k' hk' hset'
        · rw [if_neg hline]
          simpa using ih (i0 + 1) _ k' hk' hset'

/-- C2: if the force-stop event becomes set while the process is still
producing output (it is observed set at some line check `i` with lines
remaining), `_execute_job` terminates the external process, reaches
`process.wait()`, sends a completion report with `success = false`, clears
the force-stop flag, resets the current job, and ends ONLINE if the worker
may still accept leases, STOPPED otherwise. -/
theorem C2_force_stop_during_running (st : WorkerState) (job : ActiveJob)
    (env : ExecEnv) (i : Nat)
    (htool : pyTruthy (orPy st.ffmpeg_bin (resolve_tool env.toolEnv "ffmpeg")) = true)
    (hspawn : env.spawnOk = true)
    (hmono : ∀ a b : Nat, a ≤ b → env.flagAt a = true → env.flagAt b = true)
    (hi : i < env.stderrLines.length) (hset : env.flagAt i = true) :
    (executeJob st job env).terminated = true ∧
    (executeJob st job env).waited = true ∧
    (executeJob st job env).completion.1 = false ∧
    (executeJob st job env).completion.2 = env.returnCode ∧
    (executeJob st job env).state.force_stop_event = false ∧
    (executeJob st job env).state.current_job = none ∧
    (executeJob st job env).state.status
      = (if st.accept_leases then WorkerStatus.ONLINE else WorkerStatus.STOPPED) := by
  have hlen : env.flagAt env.stderrLines.length = true := hmono i _ hi.le hset
  rw [executeJob_run st job env htool hspawn]
  refine ⟨?_, rfl, ?_, rfl, rfl, rfl, rfl⟩
  · exact lineLoop_terminated env.stderrLines 0 0 i hi (by simpa using hset)
  · simp [hlen]

/-- C2 witness: force-stop set from the first observed line. -/
theorem C2_witness :
    (executeJob wkSt0 wkJob0 execEnvForced).terminated = true ∧
    (executeJob wkSt0 wkJob0 execEnvForced).waited = true ∧
    (executeJob wkSt0 wkJob0 execEnvForced).completion.1 = false ∧
    (executeJob wkSt0 wkJob0 execEnvForced).completion.2 = execEnvForced.returnCode ∧
    (executeJob wkSt0 wkJob0 execEnvForced).state.force_stop_event = false ∧
    (executeJob wkSt0 wkJob0 execEnvForced).state.current_job = none ∧
    (executeJob wkSt0 wkJob0 execEnvForced).state.status
      = (if wkSt0.accept_leases then WorkerStatus.ONLINE else WorkerStatus.STOPPED) :=
  C2_force_stop_during_running wkSt0 wkJob0 execEnvForced 0 (by decide) rfl
    (fun a b _ h => h) (by decide) rfl

/-- C10: `WorkerClient.stop` sets both the stop event and the force-stop
event; consequently a running job is aborted at the next observed output
line — with the force-stop event set, the line loop terminates the external
process before processing any line, and only the initial 0.0 progress report
is ever sent. -/
theorem C10_stop_sets_both_events (st : WorkerState) (job : ActiveJob)
    (env : ExecEnv)
    (htool : pyTruthy (orPy st.ffmpeg_bin (resolve_tool env.toolEnv "ffmpeg")) = true)
    (hspawn : env.spawnOk = true)
    (hflag : ∀ i, env.flagAt i = true)
    (hlines : env.stderrLines ≠ []) :
    (WorkerClient.stop st).stop_event = true ∧
    (WorkerClient.stop st).force_stop_event = true ∧
    (executeJob st job env).terminated = true ∧
    (executeJob st job env).progressReports = [0] := by
  refine ⟨rfl, rfl, ?_, ?_⟩
  · rw [executeJob_run st job env htool hspawn]
    exact lineLoop_terminated env.stderrLines 0 0 0 (List.length_pos.mpr hlines) (hflag 0)
  · rw [executeJob_run st job env htool hspawn]
    cases hl : env.stderrLines with
    | nil => exact absurd hl hlines
    | cons raw rest => simp [lineLoop, hflag 0]

/-- C10 witness: with the force-stop event set throughout and one pending
output line, the process is terminated before any progress beyond the
initial report. -/
theorem C10_witness :
    (WorkerClient.stop wkSt0).stop_event = true ∧
    (WorkerClient.stop wkSt0).force_stop_event = true ∧
    (executeJob wkSt0 wkJob0 execEnvForced).terminated = true ∧
    (executeJob wkSt0 wkJob0 execEnvForced).progressReports = [0] :=
  C10_stop_sets_both_events wkSt0 wkJob0 execEnvForced (by decide) rfl
    (fun _ => rfl) (by decide)

/-! ## C6: missing tool / failed spawn is fatal only for the job -/

/-- C6: when the ffmpeg executable cannot be resolved (the cached binary is
falsy and `_resolve_tool` — environment override and PATH fallback — returns
`None`) or the spawn fails, `_execute_job` reports an immediate failed
completion `(success = False, return_code = -1)` for that job, resets the
current job, and returns normally (no progress is reported, nothing was
terminated); the loop is unaffected. -/
theorem C6_tool_failure_fatal_for_job (st : WorkerState) (job : ActiveJob)
    (env : ExecEnv)
    (h : (pyTruthy st.ffmpeg_bin = false ∧ resolve_tool env.toolEnv "ffmpeg" = none) ∨
      env.spawnOk = false) :
    (executeJob st job env).completion = (false, -1) ∧
    (executeJob st job env).state.current_job = none ∧
    (executeJob st job env).progressReports = [] ∧
    (executeJob st job env).terminated = false := by
  have hfail : pyTruthy (orPy st.ffmpeg_bin (resolve_tool env.toolEnv "ffmpeg")) = false ∨
      env.spawnOk = false := by
    rcases h with ⟨h1, h2⟩ | h
    · left; rw [h2, orPy, h1]; simp [pyTruthy]
    · right; exact h
  rw [executeJob_fail st job env hfail]
  exact ⟨rfl, rfl, rfl, rfl⟩

/-- C6 witness: no cached binary, empty environment, nothing on PATH. -/
theorem C6_witness :
    (executeJob wkStNoBin wkJob0 execEnvQuiet).completion = (false, -1) ∧
    (executeJob wkStNoBin wkJob0 execEnvQuiet).state.current_job = none ∧
    (executeJob wkStNoBin wkJob0 execEnvQuiet).progressReports = [] ∧
    (executeJob wkStNoBin wkJob0 execEnvQuiet).terminated = false :=
  C6_tool_failure_fatal_for_job wkStNoBin wkJob0 execEnvQuiet (Or.inl ⟨rfl, rfl⟩)

/-! ## C5: transport failures are caught -/

/-- C5: a transport-level failure (`httpx.RequestError`) of the lease,
heartbeat, progress or completion call is caught inside the respective
method: each returns normally (never an escaping exception), the lease call
yields no job, the heartbeat leaves the state unchanged, and a loop
iteration in which both calls fail at the transport level completes with the
state unchanged. -/
theorem C5_transport_failures_nonfatal (st : WorkerState) (jobId : Nat) (pr : ℚ)
    (suc : Bool) (rc : Int) :
    requestJob st HttpOutcome.transportError = Except.ok (st, none) ∧
    sendHeartbeat st HttpOutcome.transportError = Except.ok st ∧
    sendProgress st jobId pr HttpOutcome.transportError = Except.ok () ∧
    sendCompletion st jobId suc rc HttpOutcome.transportError = Except.ok () ∧
    loopIter st loopEnvTransportFail =
      Except.ok (st, st.current_job.isNone && st.accept_leases && !st.force_stop_event) := by
  refine ⟨rfl, rfl, rfl, rfl, ?_⟩
  rw [loopIter]
  by_cases hg : (st.current_job.isNone && st.accept_leases && !st.force_stop_event) = true
  · simp only [loopEnvTransportFail, sendHeartbeat, requestJob, if_true, hg]
  · rw [Bool.not_eq_true] at hg
    simp only [loopEnvTransportFail, sendHeartbeat, requestJob, if_true, hg,
      Bool.false_eq_true, if_false]

/-! ## C9: at most one job at a time -/

theorem executeJob_current_none (st : WorkerState) (job : ActiveJob) (env : ExecEnv) :
    (executeJob st job env).state.current_job = none := by
  by_cases h1 : pyTruthy (orPy st.ffmpeg_bin (resolve_tool env.toolEnv "ffmpeg"))
  · by_cases h2 : env.spawnOk
    · rw [executeJob_run st job env h1 h2]
    · rw [executeJob_fail st job env (Or.inr (by simpa using h2))]
  · rw [executeJob_fail st job env (Or.inl (by simpa using h1))]

theorem sendHeartbeat_ok_current_job {st : WorkerState} {out : HttpOutcome HeartbeatHttp}
    {stOut : WorkerState} (h : sendHeartbeat st out = Except.ok stOut) :
    stOut.current_job = st.current_job := by
  rw [sendHeartbeat.eq_def] at h
  split at h
  · injection h with h'; rw [← h']
  · split at h
    · exact absurd h (by simp)
    · split at h
      · exact absurd h (by simp)
      · split_ifs at h <;> (injection h with h'; rw [← h'])

theorem requestJob_ok_current_job {st : WorkerState} {out : HttpOutcome LeaseHttp}
    {stOut : WorkerState} {mj : Option ActiveJob}
    (h : requestJob st out = Except.ok (stOut, mj)) :
    stOut.current_job = st.current_job := by
  rw [requestJob.eq_def] at h
  split at h
  · injection h with h'; injection h' with h1 h2; rw [← h1]
  · split at h
    · injection h with h'; injection h' with h1 h2; rw [← h1]
    · split at h
      · exact absurd h (by simp)
      · split_ifs at h <;>
          (injection h with h'; injection h' with h1 h2; rw [← h1])

/-- C9: at most one job executes at a time — `_execute_job` resets the
current job to `None` on every return path, a loop iteration calls
`_request_job` only when no current job is set (line 115), and the
no-current-job invariant is preserved across a loop iteration. -/
theorem C9_single_job_invariant (st : WorkerState) (job : ActiveJob) (env : ExecEnv)
    (lenv : LoopEnv) (st' : WorkerState) (b : Bool)
    (hrun : loopIter st lenv = Except.ok (st', b)) :
    (executeJob st job env).state.current_job = none ∧
    (b = true → st.current_job = none) ∧
    (st.current_job = none → st'.current_job = none) := by
  refine ⟨executeJob_current_none st job env, ?_⟩
  rw [loopIter] at hrun
  split at hrun
  next e heq => exact absurd hrun (by simp)
  next st1 heq =>
    have hst1 : st1.current_job = st.current_job := by
      by_cases hd : lenv.heartbeatDue
      · rw [if_pos hd] at heq; exact sendHeartbeat_ok_current_job heq
      · rw [if_neg hd] at heq; injection heq with h'; rw [h']
    by_cases hg : (st1.current_job.isNone && st1.accept_leases && !st1.force_stop_event) = true
    · rw [if_pos hg] at hrun
      have hnone : st1.current_job = none := by
        simp only [Bool.and_eq_true] at hg
        exact Option.isNone_iff_eq_none.mp hg.1.1
      have hstn : st.current_job = none := by rw [← hst1]; exact hnone
      refine ⟨fun _ => hstn, fun _ => ?_⟩
      split at hrun
      next e heq2 => exact absurd hrun (by simp)
      next st2 job2 heq2 =>
        simp only [Except.ok.injEq, Prod.mk.injEq] at hrun
        rw [← hrun.1]
        exact executeJob_current_none st2 job2 lenv.execEnv
      next st2 heq2 =>
        simp only [Except.ok.injEq, Prod.mk.injEq] at hrun
        rw [← hrun.1, requestJob_ok_current_job heq2, hst1]
        exact hstn
    · rw [if_neg hg] at hrun
      simp only [Except.ok.injEq, Prod.mk.injEq] at hrun
      refine ⟨fun hb => absurd (hrun.2.trans hb) (by simp), fun hn => ?_⟩
      rw [← hrun.1, hst1]
      exact hn

/-- C9 witness: an iteration that leases and executes a job from an idle
worker ends with no current job. -/
theorem C9_witness :
    wkStNoBin.current_job = none ∧ wkStAfterAssign.current_job = none ∧
    (executeJob wkStNoBin wkJob0 execEnvQuiet).state.current_job = none := by
  have h := C9_single_job_invariant wkStNoBin wkJob0 execEnvQuiet loopEnvAssign
    wkStAfterAssign true (by rfl)
  exact ⟨h.2.1 rfl, h.2.2 (h.2.1 rfl), h.1⟩

/-! ## C1: at most one Assign per PENDING job under concurrent polling -/

theorem serializeRequests_cons (st : MasterState) (w : String) (ws : List String) :
    serializeRequests st (w :: ws) =
      ((request_lease st w).1 :: (serializeRequests (request_lease st w).2 ws).1,
       (serializeRequests (request_lease st w).2 ws).2) := rfl

theorem claimOldestPending_of_no_pending (w : String) :
    ∀ jobs : List MJob, jobs.filter (fun j => j.jstate = JobState.PENDING) = [] →
      claimOldestPending jobs w = (none, jobs) := by
  intro jobs
  induction jobs with
  | nil => intro _; rfl
  | cons j rest ih =>
    intro hfil
    by_cases hj : j.jstate = JobState.PENDING
    · rw [List.filter_cons_of_pos (by simpa using hj)] at hfil
      cases hfil
    · rw [List.filter_cons_of_neg (by simpa using hj)] at hfil
      rw [claimOldestPending, if_neg hj, ih hfil]

theorem claimOldestPending_single (w : String) :
    ∀ (jobs : List MJob) (j0 : MJob),
      jobs.filter (fun j => j.jstate = JobState.PENDING) = [j0] →
      ∃ jobs', claimOldestPending jobs w = (some (leasedTo j0 w), jobs') ∧
        jobs'.filter (fun j => j.jstate = JobState.PENDING) = [] := by
  intro jobs
  induction jobs with
  | nil => intro j0 h; simp at h
  | cons j rest ih =>
    intro j0 hfil
    by_cases hj : j.jstate = JobState.PENDING
    · rw [List.filter_cons_of_pos (by simpa using hj)] at hfil
      injection hfil with hj0 hrest
      subst hj0
      refine ⟨leasedTo j w :: rest, ?_, ?_⟩
      · rw [claimOldestPending, if_pos hj]; rfl
      · rw [List.filter_cons_of_neg (by simp [leasedTo])]
        exact hrest
    · rw [List.filter_cons_of_neg (by simpa using hj)] at hfil
      obtain ⟨jobs', hclaim, hpend⟩ := ih j0 hfil
      refine ⟨j :: jobs', ?_, ?_⟩
      · rw [claimOldestPending, if_neg hj, hclaim]
      · rw [List.filter_cons_of_neg (by simpa using hj)]
        exact hpend

theorem request_lease_no_assign_of_no_pending (st : MasterState) (w : String)
    (hp : pendingJobs st = []) :
    isAssign (request_lease st w).1 = false ∧
      pendingJobs (request_lease st w).2 = [] := by
  rw [request_lease]
  split_ifs with h1 h2 h3
  · exact ⟨rfl, hp⟩
  · exact ⟨rfl, hp⟩
  · exact ⟨rfl, hp⟩
  · split
    next j jobs' heq =>
      rw [claimOldestPending_of_no_pending w st.jobs hp] at heq
      cases heq
    next heq => exact ⟨rfl, hp⟩

theorem request_lease_assign_of_single (st : MasterState) (w : String) (j0 : MJob)
    (hp : pendingJobs st = [j0]) (hf : st.forceFlag w = false)
    (hs : st.stopFlag w = false) (hpause : st.paused = false) :
    (request_lease st w).1 = LeaseDecision.Assign (leasedTo j0 w) ∧
      pendingJobs (request_lease st w).2 = [] := by
  obtain ⟨jobs', hclaim, hpend⟩ := claimOldestPending_single w st.jobs j0 hp
  rw [request_lease]
  simp only [hf, hs, hpause, Bool.false_eq_true, if_false]
  split
  next j jobs'' heq =>
    rw [hclaim] at heq
    injection heq with e1 e2
    injection e1 with e1'
    constructor
    · rw [← e1']
    · show jobs''.filter _ = []
      rw [← e2]
      exact hpend
  next heq =>
    rw [hclaim] at heq
    cases heq

theorem request_lease_blocked (st : MasterState) (w : String)
    (h : st.forceFlag w = true ∨ st.stopFlag w = true) :
    isAssign (request_lease st w).1 = false ∧
      (request_lease st w).2.jobs = st.jobs ∧
      (request_lease st w).2.paused = st.paused ∧
      (request_lease st w).2.forceFlag = st.forceFlag ∧
      (request_lease st w).2.stopFlag = st.stopFlag := by
  rw [request_lease]
  rcases h with h | h
  · simp [h, isAssign]
  · by_cases hf : st.forceFlag w <;> simp [hf, h, isAssign]

theorem serializeRequests_no_assign (ws : List String) :
    ∀ st : MasterState, pendingJobs st = [] →
      ∀ d ∈ (serializeRequests st ws).1, isAssign d = false := by
  induction ws with
  | nil => intro st hp d hd; simp [serializeRequests] at hd
  | cons w ws ih =>
    intro st hp d hd
    rw [serializeRequests_cons] at hd
    simp only [List.mem_cons] at hd
    have hstep := request_lease_no_assign_of_no_pending st w hp
    rcases hd with rfl | hd
    · exact hstep.1
    · exact ih _ hstep.2 d hd

theorem serializeRequests_single_assign (j0 : MJob) :
    ∀ (ws : List String) (st : MasterState),
      pendingJobs st = [j0] → st.paused = false →
      (∃ w ∈ ws, st.forceFlag w = false ∧ st.stopFlag w = false) →
      countAssigns (serializeRequests st ws).1 = 1 ∧
      ∀ j', LeaseDecision.Assign j' ∈ (serializeRequests st ws).1 → j'.id = j0.id := by
  intro ws
  induction ws with
  | nil => intro st _ _ hex; simp at hex
  | cons w ws ih =>
    intro st hp hpause hex
    rw [serializeRequests_cons]
    by_cases hfw : st.forceFlag w = true ∨ st.stopFlag w = true
    · obtain ⟨hna, hjobs, hpausep, hforce, hstop⟩ := request_lease_blocked st w hfw
      have hp' : pendingJobs (request_lease st w).2 = [j0] := by
        rw [pendingJobs, hjobs]; exact hp
      have hpause' : (request_lease st w).2.paused = false := by
        rw [hpausep]; exact hpause
      have hex' : ∃ w' ∈ ws, (request_lease st w).2.forceFlag w' = false ∧
          (request_lease st w).2.stopFlag w' = false := by
        obtain ⟨w', hw', hff, hsf⟩ := hex
        have hww : w' ≠ w := by
          intro he; subst he
          rcases hfw with hfw | hfw
          · rw [hff] at hfw; cases hfw
          · rw [hsf] at hfw; cases hfw
        have hw'' : w' ∈ ws := by
          rcases List.mem_cons.mp hw' with he | hm
          · exact absurd he hww
          · exact hm
        exact ⟨w', hw'', by rw [hforce]; exact hff, by rw [hstop]; exact hsf⟩
      obtain ⟨hcount, hmem⟩ := ih (request_lease st w).2 hp' hpause' hex'
      constructor
      · simpa [countAssigns, List.countP_cons, hna] using hcount
      · intro j' hj'
        rcases List.mem_cons.mp hj' with he | hm
        · rw [← he] at hna; simp [isAssign] at hna
        · exact hmem j' hm
    · have hff : st.forceFlag w = false := by
        cases hcase : st.forceFlag w
        · rfl
        · exact absurd (Or.inl hcase) hfw
      have hsf : st.stopFlag w = false := by
        cases hcase : st.stopFlag w
        · rfl
        · exact absurd (Or.inr hcase) hfw
      obtain ⟨hdec, hpend'⟩ := request_lease_assign_of_single st w j0 hp hff hsf hpause
      rw [hdec]
      have hall := serializeRequests_no_assign ws (request_lease st w).2 hpend'
      have hzero : (serializeRequests (request_lease st w).2 ws).1.countP isAssign = 0 :=
        List.countP_eq_zero.mpr (fun d hd => by simp [hall d hd])
      constructor
      · rw [countAssigns, List.countP_cons, hzero]
        simp [isAssign]
      · intro j' hj'
        rcases List.mem_cons.mp hj' with he | hm
        · injection he with hje
          rw [hje]; rfl
        · exact absurd (hall _ hm) (by simp [isAssign])

/-- C1 (amended): for any serialization of a set of concurrent lease
requests against a state holding exactly one PENDING job, provided the
global pause flag is clear and at least one requester has neither a stop nor
a force-stop flag, exactly one request receives `Assign`, every `Assign`
carries that job's id (so two workers never receive the same job id), and
every decision is an Assign, a Wait, or a stop action. -/
theorem C1_lease_uniqueness (st : MasterState) (ws : List String) (j0 : MJob)
    (hp : pendingJobs st = [j0]) (hpause : st.paused = false)
    (hex : ∃ w ∈ ws, st.forceFlag w = false ∧ st.stopFlag w = false) :
    countAssigns (serializeRequests st ws).1 = 1 ∧
    (∀ j', LeaseDecision.Assign j' ∈ (serializeRequests st ws).1 → j'.id = j0.id) ∧
    (∀ d ∈ (serializeRequests st ws).1, isAssign d = true ∨ d = LeaseDecision.Stop ∨
      d = LeaseDecision.ForceStop ∨ ∃ b, d = LeaseDecision.Wait b) := by
  obtain ⟨h1, h2⟩ := serializeRequests_single_assign j0 ws st hp hpause hex
  refine ⟨h1, h2, ?_⟩
  intro d _
  cases d with
  | Assign j => exact Or.inl rfl
  | Stop => exact Or.inr (Or.inl rfl)
  | ForceStop => exact Or.inr (Or.inr (Or.inl rfl))
  | Wait b => exact Or.inr (Or.inr (Or.inr ⟨b, rfl⟩))

/-- C1 counterexample: the claim as stated quantifies over every state with
exactly one PENDING job; with the global pause flag set, two otherwise
unimpeded requesters both receive `Wait`, so no requester receives `Assign`
and "exactly one requester receives Assign" fails. -/
theorem C1_counterexample :
    pendingJobs mStPaused = [mJobPending] ∧
    countAssigns (serializeRequests mStPaused ["w1", "w2"]).1 = 0 := by
  constructor
  · rfl
  · rfl

/-- C1 witness: two workers race for one PENDING job in an unblocked state;
exactly one Assign is granted. -/
theorem C1_witness :
    countAssigns (serializeRequests mSt0 ["w1", "w2"]).1 = 1 :=
  (C1_lease_uniqueness mSt0 ["w1", "w2"] mJobPending rfl rfl
    ⟨"w1", List.mem_cons_self _ _, rfl, rfl⟩).1
